import Mathlib

/-!
Shallow embedding of the Swiss-tournament core of `gambit-pairing`
(`src/core/old_tournament_file.py`, class `Tournament`), together with
spec-level definitions used to check the natural-language specification
against the code.

Scores are modelled as rationals (the Python floats only ever hold small
multiples of 1/2, on which float arithmetic is exact).  Python's stable
`sorted` is modelled by `List.insertionSort`, which is stable for the
non-strict lexicographic relations used below.  Python object mutation is
modelled by explicit state passing; dictionaries keep insertion order, so
`Tournament.players` is a list in roster order.

The `Player` class and the module `core/constants.py` are not part of the
provided sources (only `core/old_tournament_file.py` is); the player-record
operations and the constants are therefore modelled from the spec (§3, §4.1,
§6) and are marked `Modelled from the spec:` below.
-/

/-- Colors, `W` / `B` in the source (string constants from the missing
`core/constants.py`). -/
inductive Color where
  | white
  | black
deriving DecidableEq, Repr

/-- Modelled from the spec: `WIN_SCORE = 1.0` (§6 Constants). -/
def WIN_SCORE : ℚ := 1

/-- Modelled from the spec: `DRAW_SCORE = 0.5` (§6 Constants). -/
def DRAW_SCORE : ℚ := 1/2

/-- Modelled from the spec: `LOSS_SCORE = 0.0` (§6 Constants). -/
def LOSS_SCORE : ℚ := 0

/-- Modelled from the spec: `BYE_SCORE = 1.0` (§6 Constants). -/
def BYE_SCORE : ℚ := 1

/-- Modelled from the spec: tie-break keys (§4.4); the string constants live
in the missing `core/constants.py`, only their distinctness matters. -/
def TB_MEDIAN : String := "MEDIAN"

/-- Modelled from the spec: tie-break key (§4.4). -/
def TB_SOLKOFF : String := "SOLKOFF"

/-- Modelled from the spec: tie-break key (§4.4). -/
def TB_CUMULATIVE : String := "CUMULATIVE"

/-- Modelled from the spec: tie-break key (§4.4). -/
def TB_CUMULATIVE_OPP : String := "CUMULATIVE_OPP"

/-- Modelled from the spec: tie-break key (§4.4). -/
def TB_SONNENBORN_BERGER : String := "SONNENBORN_BERGER"

/-- Modelled from the spec: tie-break key (§4.4). -/
def TB_MOST_BLACKS : String := "MOST_BLACKS"

/-- Modelled from the spec: tie-break key (§4.4). -/
def TB_HEAD_TO_HEAD : String := "HEAD_TO_HEAD"

/-- Modelled from the spec: the Player record (§3 Data Model).  The class
`core/player.py` is not among the provided sources; the fields are exactly
the attributes the spec lists and the tournament code reads. -/
structure Player where
  id : String
  name : String
  rating : Int
  is_active : Bool
  results : List ℚ
  opponent_ids : List (Option String)
  color_history : List (Option Color)
  has_received_bye : Bool
  float_history : List Int
  running_scores : List ℚ
  num_black_games : Nat
  tiebreakers : List (String × ℚ)
deriving DecidableEq, Repr

/-- Modelled from the spec: `score() → sum of results (live)` (§4.1, I5). -/
def Player.score (p : Player) : ℚ := p.results.sum

/-- Color balance (whites − blacks over non-bye games), as computed inline by
`create_pairings` (lines 209–212 / 274–277 of the source). -/
def Player.colorBalance (p : Player) : Int :=
  let vc := p.color_history.filterMap (fun c => c)
  (vc.count Color.white : Int) - (vc.count Color.black : Int)

/-- The opposite color. -/
def Color.other : Color → Color
  | Color.white => Color.black
  | Color.black => Color.white

/-- Modelled from the spec: `color_preference()` (§4.1).  If the last two
non-bye games had the same color the opposite color is required; otherwise a
color balance ≥ +1 prefers Black and ≤ −1 prefers White.  The spec's
Must/Prefer distinction collapses to the color itself, which is all the
tournament code consumes (it compares the result to `W`, `B`, `None`). -/
def Player.get_color_preference (p : Player) : Option Color :=
  let vc := p.color_history.filterMap (fun c => c)
  match vc.reverse with
  | c1 :: c2 :: _ =>
    if c1 = c2 then some c1.other
    else if p.colorBalance ≥ 1 then some Color.black
    else if p.colorBalance ≤ -1 then some Color.white
    else none
  | _ =>
    if p.colorBalance ≥ 1 then some Color.black
    else if p.colorBalance ≤ -1 then some Color.white
    else none

/-- Modelled from the spec: `record_round` / `add_round_result` (§4.1):
appends one entry to each parallel history sequence, updates
`has_received_bye` when the opponent is "none", updates `num_black_games`,
and appends the new cumulative score to `running_scores`.  The call sites in
the tournament code pass no round index, so no index check is modelled. -/
def Player.add_round_result (p : Player) (opp : Option String) (result : ℚ)
    (color : Option Color) : Player :=
  { p with
    results := p.results ++ [result]
    opponent_ids := p.opponent_ids ++ [opp]
    color_history := p.color_history ++ [color]
    has_received_bye := p.has_received_bye || opp.isNone
    num_black_games := p.num_black_games + (if color = some Color.black then 1 else 0)
    running_scores := p.running_scores ++ [p.score + result] }

/-- The Tournament state (`Tournament.__init__`, lines 9–17).  `players` is a
list in roster (insertion) order, standing for the Python dict;
`previous_matches` is a list of id pairs with unordered membership. -/
structure Tournament where
  name : String
  players : List Player
  num_rounds : Nat
  tiebreak_order : List String
  rounds_pairings_ids : List (List (String × String))
  rounds_byes_ids : List (Option String)
  previous_matches : List (String × String)
  manual_pairings : List (Nat × List (String × Option String))
deriving DecidableEq, Repr

/-- `Tournament._get_active_players` (lines 25–26). -/
def Tournament.activePlayers (t : Tournament) : List Player :=
  t.players.filter (fun p => p.is_active)

/-- Unordered membership of `{a, b}` in the `previous_matches` set
(the Python `frozenset({p1.id, p2.id}) in self.previous_matches`). -/
def matchedBefore (prev : List (String × String)) (a b : String) : Bool :=
  prev.any (fun pr => (pr.1 = a && pr.2 = b) || (pr.1 = b && pr.2 = a))

/-- `self.previous_matches.add(frozenset({p1.id, p2.id}))`. -/
def addMatch (prev : List (String × String)) (a b : String) :
    List (String × String) :=
  (a, b) :: prev

/-- Lookup a player by id in the roster (the Python `self.players.get(pid)`). -/
def findPlayer (players : List Player) (pid : String) : Option Player :=
  players.find? (fun p => p.id = pid)

/-- Update the player with the given id (Python mutates the object held in
`self.players`). -/
def updatePlayer (players : List Player) (pid : String) (f : Player → Player) :
    List Player :=
  players.map (fun p => if p.id = pid then f p else p)

/-- Sort key `(p.score, p.rating, p.name)` ascending (bye selection,
lines 44 and 52). -/
def byeKeyLE (p q : Player) : Prop :=
  p.score < q.score ∨ (p.score = q.score ∧
    (p.rating < q.rating ∨ (p.rating = q.rating ∧ ¬ q.name < p.name)))

instance : DecidableRel byeKeyLE := fun p q => by
  unfold byeKeyLE; exact inferInstance

/-- Sort key `(-p.rating, p.name)` ascending, i.e. rating descending then
name ascending (lines 66, 110, 116, 235). -/
def seedLE (p q : Player) : Prop :=
  q.rating < p.rating ∨ (p.rating = q.rating ∧ ¬ q.name < p.name)

instance : DecidableRel seedLE := fun p q => by
  unfold seedLE; exact inferInstance

/-- Last float round, `p.float_history[-1] if p.float_history else -999`
(line 132). -/
def Player.lastFloat (p : Player) : Int := p.float_history.getLastD (-999)

/-- Sort key `(lastFloat, p.rating, p.name)` ascending for floater selection
(line 132). -/
def floatKeyLE (p q : Player) : Prop :=
  p.lastFloat < q.lastFloat ∨ (p.lastFloat = q.lastFloat ∧
    (p.rating < q.rating ∨ (p.rating = q.rating ∧ ¬ q.name < p.name)))

instance : DecidableRel floatKeyLE := fun p q => by
  unfold floatKeyLE; exact inferInstance

/-- `Tournament._get_eligible_bye_player` (lines 28–54): among the active
candidates, prefer those without a bye, sorted by `(score, rating, name)`;
if all have had a bye, the same key over all active candidates. -/
def get_eligible_bye_player (pool : List Player) : Option Player :=
  let actives := pool.filter (fun p => p.is_active)
  if actives.isEmpty then none
  else
    let firsts := actives.filter (fun p => !p.has_received_bye)
    if firsts.isEmpty then (List.insertionSort byeKeyLE actives).head?
    else (List.insertionSort byeKeyLE firsts).head?

/-- Color assignment when pairing `p1` against `p2`, exactly the branch
structure of `create_pairings` lines 192–216 (repeated verbatim at lines
266–280 and 294–308).  Returns `(white, black)`. -/
def assignColors (p1 p2 : Player) : Player × Player :=
  let pref1 := p1.get_color_preference
  let pref2 := p2.get_color_preference
  if pref1 = some Color.white ∧ (pref2 = some Color.black ∨ pref2 = none) then (p1, p2)
  else if pref1 = some Color.black ∧ (pref2 = some Color.white ∨ pref2 = none) then (p2, p1)
  else if pref2 = some Color.white ∧ (pref1 = some Color.black ∨ pref1 = none) then (p2, p1)
  else if pref2 = some Color.black ∧ (pref1 = some Color.white ∨ pref1 = none) then (p1, p2)
  else if pref1 = some Color.white then (p1, p2)
  else if pref1 = some Color.black then (p2, p1)
  else if pref2 = some Color.white then (p2, p1)
  else if pref2 = some Color.black then (p1, p2)
  else
    let b1 := p1.colorBalance
    let b2 := p2.colorBalance
    if b1 > b2 then (p2, p1)
    else if b2 > b1 then (p1, p2)
    else if p1.rating ≥ p2.rating then (p1, p2) else (p2, p1)

/-- Conflict test of the opponent scan (lines 163–165): `+2` iff both players
have the same non-null color preference; we only need the Boolean. -/
def sameNonNullPref (p1 p2 : Player) : Bool :=
  match p1.get_color_preference, p2.get_color_preference with
  | some a, some b => a = b
  | _, _ => false

/-- Remove-and-return the first element satisfying `pred`, keeping the order
of the others (models `enumerate`+`pop(idx)` on a Python list). -/
def pickFirst (pred : Player → Bool) : List Player → Option (Player × List Player)
  | [] => none
  | x :: xs =>
    if pred x then some (x, xs)
    else
      match pickFirst pred xs with
      | none => none
      | some (y, ys) => some (y, x :: ys)

/-- Opponent selection for `p1` (lines 152–174): the first not-previously-met
candidate with color-conflict 0, else the first not-previously-met candidate;
`none` when every candidate is a previous opponent (with no repeat-pairing
callback the fallback at lines 177–186 does nothing). -/
def bestOpponent (prev : List (String × String)) (p1 : Player)
    (rest : List Player) : Option (Player × List Player) :=
  match pickFirst
      (fun c => !matchedBefore prev p1.id c.id && !sameNonNullPref p1 c) rest with
  | some res => some res
  | none => pickFirst (fun c => !matchedBefore prev p1.id c.id) rest

/-- Result of pairing inside one score group. -/
structure LoopOut where
  prev : List (String × String)
  pairs : List (Player × Player)
  carried : List Player
deriving Repr

/-- The in-group pairing loop (lines 147–228), fuelled for structural
recursion: pop the head, pair it with `bestOpponent` or carry it down; a
final single leftover is also carried.  The fuel is always at least the list
length at call sites. -/
def pairLoopF : Nat → List (String × String) → List Player → LoopOut
  | 0, prev, l => ⟨prev, [], l⟩
  | _ + 1, prev, [] => ⟨prev, [], []⟩
  | _ + 1, prev, [p] => ⟨prev, [], [p]⟩
  | fuel + 1, prev, p1 :: q :: rest =>
    match bestOpponent prev p1 (q :: rest) with
    | some (p2, rest') =>
      let wb := assignColors p1 p2
      let res := pairLoopF fuel (addMatch prev p1.id p2.id) rest'
      ⟨res.prev, wb :: res.pairs, res.carried⟩
    | none =>
      let res := pairLoopF fuel prev (q :: rest)
      ⟨res.prev, res.pairs, p1 :: res.carried⟩

/-- The in-group pairing loop with sufficient fuel. -/
def pairLoop (prev : List (String × String)) (l : List Player) : LoopOut :=
  pairLoopF l.length prev l

/-- Floater selection for an odd merged group (lines 122–139): candidates not
yet floated this round (all of them as fallback), sorted by
`(last float round, rating, name)`; the floater's `float_history` gains the
current round and the floater leaves the group. -/
def selectFloater (r : Int) (floated : List String) (merged : List Player) :
    Option Player × List Player × List String :=
  let candidates := merged.filter (fun p => !floated.contains p.id)
  let candidates2 := if candidates.isEmpty then merged else candidates
  match (List.insertionSort floatKeyLE candidates2).head? with
  | none => (none, merged, floated)
  | some f =>
    let f' := { f with float_history := f.float_history ++ [r] }
    (some f', merged.eraseP (fun p => p.id = f.id), floated ++ [f.id])

/-- Result of the score-group phase of a subsequent round. -/
structure GroupsOut where
  prev : List (String × String)
  pairs : List (Player × Player)
  carry : List Player
  updated : List Player
deriving Repr

/-- The score-group loop of `create_pairings` (lines 109–228): merge the
carry into the group, sort by `(rating desc, name asc)`, float one player out
of an odd group, pair the rest, carry the unpaired down.  `updated` collects
the mutated (floated) player values, in mutation order. -/
def processGroups (r : Int) (prev : List (String × String)) (floated : List String)
    (carry : List Player) (updates : List Player) :
    List (ℚ × List Player) → GroupsOut
  | [] => ⟨prev, [], carry, updates⟩
  | (_, grp) :: rest =>
    let merged := List.insertionSort seedLE (carry ++ List.insertionSort seedLE grp)
    if merged.length % 2 = 1 then
      match selectFloater r floated merged with
      | (some f, merged2, floated2) =>
        let lo := pairLoop prev merged2
        let res := processGroups r lo.prev floated2 ([f] ++ lo.carried) (updates ++ [f]) rest
        ⟨res.prev, lo.pairs ++ res.pairs, res.carry, res.updated⟩
      | (none, merged2, floated2) =>
        let lo := pairLoop prev merged2
        let res := processGroups r lo.prev floated2 lo.carried updates rest
        ⟨res.prev, lo.pairs ++ res.pairs, res.carry, res.updated⟩
    else
      let lo := pairLoop prev merged
      let res := processGroups r lo.prev floated lo.carried updates rest
      ⟨res.prev, lo.pairs ++ res.pairs, res.carry, res.updated⟩

/-- Descending-score relation for orderings of score groups. -/
def scoreGE (a b : ℚ) : Prop := b ≤ a

instance : DecidableRel scoreGE := fun a b => by
  unfold scoreGE; exact inferInstance

/-- The distinct current scores of the active players, descending
(lines 97–100). -/
def distinctScoresDesc (t : Tournament) : List ℚ :=
  List.insertionSort scoreGE (t.activePlayers.map Player.score).dedup

/-- The score groups in descending score order, members in roster order
(lines 97–100). -/
def scoreGroupsOf (t : Tournament) : List (ℚ × List Player) :=
  (distinctScoresDesc t).map
    (fun s => (s, t.activePlayers.filter (fun p => p.score = s)))

/-- The leftover pairing loop (lines 259–316), fuelled: pop the head, pair it
with the first not-previously-met candidate; with no repeat-pairing callback
an unpairable head is dropped with a logged error (lines 288–316). -/
def finalPairLoopF : Nat → List (String × String) → List Player →
    List (String × String) × List (Player × Player)
  | 0, prev, _ => (prev, [])
  | _ + 1, prev, [] => (prev, [])
  | _ + 1, prev, [_] => (prev, [])
  | fuel + 1, prev, p1 :: q :: rest =>
    match pickFirst (fun c => !matchedBefore prev p1.id c.id) (q :: rest) with
    | some (p2, rest') =>
      let wb := assignColors p1 p2
      let res := finalPairLoopF fuel (addMatch prev p1.id p2.id) rest'
      (res.1, wb :: res.2)
    | none => finalPairLoopF fuel prev (q :: rest)

/-- Result of `create_pairings`: the new tournament state, the emitted
`(white, black)` pairs, and the bye player if any. -/
structure PairResult where
  t : Tournament
  pairings : List (Player × Player)
  bye : Option Player
deriving Repr

/-- The tail of `create_pairings` for subsequent rounds (lines 231–321):
sort the leftovers by `(rating desc, name asc)`; if their number is odd, the
bye candidate is the **last** (lowest-rated) leftover alone, passed as a
singleton to `_get_eligible_bye_player` (line 242); pair the remainder; emit
the round history entry. -/
def finishRound (t : Tournament) (prev : List (String × String))
    (updates : List Player) (groupPairs : List (Player × Player))
    (carry : List Player) : PairResult :=
  let pool := List.insertionSort seedLE carry
  let byePool :=
    if pool.length % 2 = 1 then
      match pool.getLast? with
      | some cand =>
        match get_eligible_bye_player [cand] with
        | some bp => (some bp, pool.eraseP (fun p => p.id = bp.id))
        | none => (none, pool)
      | none => (none, pool)
    else (none, pool)
  let fin := finalPairLoopF byePool.2.length prev byePool.2
  let allPairs := groupPairs ++ fin.2
  let players' := updates.foldl (fun ps u => updatePlayer ps u.id (fun _ => u)) t.players
  { t := { t with
      players := players'
      previous_matches := fin.1
      rounds_pairings_ids :=
        t.rounds_pairings_ids ++ [allPairs.map (fun wb => (wb.1.id, wb.2.id))]
      rounds_byes_ids := t.rounds_byes_ids ++ [byePool.1.map Player.id] }
    pairings := allPairs
    bye := byePool.1 }

/-- Round-1 pairing (lines 64–94): seed order `(rating desc, name asc)`; if
the count is odd the bye is selected by `_get_eligible_bye_player` over the
whole sorted list and removed; top half plays bottom half, higher seed
White. -/
def round1Pairings (t : Tournament) (actives : List Player) : PairResult :=
  let sortedP := List.insertionSort seedLE actives
  let byeRest :=
    if sortedP.length % 2 = 1 then
      match get_eligible_bye_player sortedP with
      | some bp => (some bp, sortedP.eraseP (fun p => p.id = bp.id))
      | none => (none, sortedP)
    else (none, sortedP)
  let rest := byeRest.2
  let mid := rest.length / 2
  let pairs := (rest.take mid).zip (rest.drop mid)
  let prev' := pairs.foldl (fun pr wb => addMatch pr wb.1.id wb.2.id) t.previous_matches
  { t := { t with
      previous_matches := prev'
      rounds_pairings_ids :=
        t.rounds_pairings_ids ++ [pairs.map (fun wb => (wb.1.id, wb.2.id))]
      rounds_byes_ids := t.rounds_byes_ids ++ [byeRest.1.map Player.id] }
    pairings := pairs
    bye := byeRest.1 }

/-- The score-group phase applied to a tournament (lines 96–228). -/
def groupStage (t : Tournament) (r : Int) : GroupsOut :=
  processGroups r t.previous_matches [] [] [] (scoreGroupsOf t)

/-- The sorted leftovers pool of a subsequent round (lines 234–235): the
carry remaining after the lowest score group, sorted `(rating desc, name
asc)`. -/
def leftoversPool (t : Tournament) (r : Int) : List Player :=
  List.insertionSort seedLE (groupStage t r).carry

/-- `Tournament.create_pairings` (lines 57–321), with no repeat-pairing
callback (`allow_repeat_pairing_callback = None`): empty roster returns an
empty result and appends nothing; round 1 pairs by seed; later rounds pair by
score groups and finish on the leftovers pool. -/
def create_pairings (t : Tournament) (current_round : Int) : PairResult :=
  let actives := t.activePlayers
  if actives.isEmpty then ⟨t, [], none⟩
  else if current_round = 1 then round1Pairings t actives
  else
    let g := groupStage t current_round
    finishRound t g.prev g.updated g.pairs g.carry

/-- The mismatched-pairing test of `record_results` (line 535): white's
stored opponent for this round index exists and differs from `black_id`. -/
def mismatchAt (p_white : Player) (round_index : Nat) (black_id : String) : Bool :=
  match p_white.opponent_ids.get? round_index with
  | some (some o) => o ≠ black_id
  | _ => false

/-- One game entry of `record_results` (lines 509–545): look up both players
(missing → failure, entry skipped); if either already has a result for this
round index **and** white's stored opponent differs from black, fail and skip
the entry; otherwise append `white_score` to white and
`WIN_SCORE − white_score` to black. -/
def processEntry (round_index : Nat) (st : List Player × Bool)
    (entry : String × String × ℚ) : List Player × Bool :=
  let players := st.1
  let white_id := entry.1
  let black_id := entry.2.1
  let white_score := entry.2.2
  match findPlayer players white_id, findPlayer players black_id with
  | some p_white, some p_black =>
    if (decide (round_index < p_white.results.length) ||
        decide (round_index < p_black.results.length)) &&
        mismatchAt p_white round_index black_id then
      (players, false)
    else
      let black_score := WIN_SCORE - white_score
      let players1 := updatePlayer players white_id
        (fun p => p.add_round_result (some p_black.id) white_score (some Color.white))
      let players2 := updatePlayer players1 black_id
        (fun p => p.add_round_result (some p_white.id) black_score (some Color.black))
      (players2, st.2)
  | _, _ => (players, false)

/-- The bye-recording tail of `record_results` (lines 547–573): an existing
bye player with no entry for this round yet gets `BYE_SCORE` if active and
`0.0` if inactive; a missing bye player id fails. -/
def recordBye (round_index : Nat) (players : List Player) (success : Bool)
    (byeId : Option String) : List Player × Bool :=
  match byeId with
  | none => (players, success)
  | some bid =>
    match findPlayer players bid with
    | none => (players, false)
    | some p_bye =>
      if p_bye.results.length = round_index then
        (updatePlayer players bid
          (fun p => p.add_round_result none
            (if p_bye.is_active then BYE_SCORE else 0) none), success)
      else (players, success)

/-- `Tournament.record_results` (lines 497–580): invalid round index fails
before any mutation; otherwise every game entry is processed in order and the
bye is recorded, accumulating a success flag. -/
def record_results (t : Tournament) (round_index : Nat)
    (results_data : List (String × String × ℚ)) : Bool × Tournament :=
  if round_index < t.rounds_pairings_ids.length then
    let st := results_data.foldl (processEntry round_index) (t.players, true)
    let byeId := t.rounds_byes_ids.getD round_index none
    let fin := recordBye round_index st.1 st.2 byeId
    (fin.2, { t with players := fin.1 })
  else (false, t)

/-- `Tournament.get_completed_rounds` (lines 729–743). -/
def get_completed_rounds (t : Tournament) : Nat :=
  let actives := t.activePlayers
  if actives.isEmpty then 0
  else
    let withResults := actives.filter (fun p => !p.results.isEmpty)
    if withResults.isEmpty then 0
    else ((withResults.map (fun p => p.results.length)).min?).getD 0

/-- Find the pairing containing `pid` in a round's pairing list (lines
370–380 / 403–413): returns `(index, original opponent, pid was white)`. -/
def findPairingAux (pid : String) : List (String × String) → Nat →
    Option (Nat × String × Bool)
  | [], _ => none
  | (w, b) :: rest, i =>
    if w = pid then some (i, b, true)
    else if b = pid then some (i, w, false)
    else findPairingAux pid rest (i + 1)

/-- Find the pairing containing `pid` in a round's pairing list. -/
def findPairing (cur : List (String × String)) (pid : String) :
    Option (Nat × String × Bool) :=
  findPairingAux pid cur 0

/-- Python list assignment `l[i] = x` including the negative-index case
(`l[-1]` writes the last element), as used with `p1_pair_idx = -1` when the
adjusted player was the bye (lines 367, 427–429). -/
def pySet (l : List (String × String)) (i : Int) (x : String × String) :
    List (String × String) :=
  if i < 0 then l.set (l.length - i.natAbs) x else l.set i.toNat x

/-- `if round_index not in self.manual_pairings: ... = {}` (line 363). -/
def ensureKey (mp : List (Nat × List (String × Option String))) (k : Nat) :
    List (Nat × List (String × Option String)) :=
  if mp.any (fun e => e.1 = k) then mp else mp ++ [(k, [])]

/-- Assignment into the inner per-round override dict. -/
def setInner (d : List (String × Option String)) (key : String)
    (v : Option String) : List (String × Option String) :=
  if d.any (fun e => e.1 = key) then
    d.map (fun e => if e.1 = key then (key, v) else e)
  else d ++ [(key, v)]

/-- `self.manual_pairings[round_index][key] = v` (lines 418–421, 469–471),
called only after `ensureKey`. -/
def setMP (mp : List (Nat × List (String × Option String))) (k : Nat)
    (key : String) (v : Option String) :
    List (Nat × List (String × Option String)) :=
  mp.map (fun e => if e.1 = k then (k, setInner e.2 key v) else e)

/-- `Tournament.manually_adjust_pairing` (lines 341–494) with its three
outcomes: early validation failures before any mutation (invalid or completed
round index, unknown ids, self-pairing); the already-paired no-op returning
success; and the two swap cases.  The empty override dict for the round is
inserted at line 363, before the remaining checks, so later failures leave it
behind.  In Case 1 the sub-branches of lines 447–463 that require
`new_opp_orig_opp_id` to be absent are unreachable (the Case-1 guard makes it
present) and only logging remains, so they produce no state change here. -/
def manually_adjust_pairing (t : Tournament) (round_index : Nat)
    (player1_id new_opponent_id : String) : Bool × Tournament :=
  if round_index ≥ t.rounds_pairings_ids.length then (false, t)
  else if round_index < get_completed_rounds t then (false, t)
  else
    match findPlayer t.players player1_id, findPlayer t.players new_opponent_id with
    | some _, some _ =>
      if player1_id = new_opponent_id then (false, t)
      else
        let cur := t.rounds_pairings_ids.getD round_index []
        let byeAt := t.rounds_byes_ids.getD round_index none
        let t1 := { t with manual_pairings := ensureKey t.manual_pairings round_index }
        let p1find := findPairing cur player1_id
        if p1find = none ∧ ¬ byeAt = some player1_id then (false, t1)
        else
          let p1_pair_idx : Int := match p1find with | some x => (x.1 : Int) | none => -1
          let p1_orig_opp : Option String := p1find.map (fun x => x.2.1)
          let p1_was_white : Bool := match p1find with | some x => x.2.2 | none => false
          if p1_orig_opp = some new_opponent_id then (true, t1)
          else
            match findPairing cur new_opponent_id with
            | some (nidx, noorig, _) =>
              let mp1 := setMP t1.manual_pairings round_index player1_id p1_orig_opp
              let mp2 := setMP mp1 round_index new_opponent_id (some noorig)
              let mp3 := match p1_orig_opp with
                | some o => setMP mp2 round_index o (some player1_id)
                | none => mp2
              let mp4 := setMP mp3 round_index noorig (some new_opponent_id)
              let cur1 := pySet cur p1_pair_idx
                (if p1_was_white then (player1_id, new_opponent_id)
                 else (new_opponent_id, player1_id))
              let cur2 := match p1_orig_opp with
                | some o =>
                  if (nidx : Int) ≠ p1_pair_idx then
                    pySet cur1 (nidx : Int)
                      (if !p1_was_white then (o, noorig) else (noorig, o))
                  else cur1
                | none => cur1
              let prev1 := addMatch t.previous_matches player1_id new_opponent_id
              let prev2 := match p1_orig_opp with
                | some o => if ¬ o = noorig then addMatch prev1 o noorig else prev1
                | none => prev1
              (true, { t1 with
                rounds_pairings_ids := t.rounds_pairings_ids.set round_index cur2
                previous_matches := prev2
                manual_pairings := mp4 })
            | none =>
              if byeAt = some new_opponent_id then
                let mp1 := setMP t1.manual_pairings round_index player1_id p1_orig_opp
                let mp2 := setMP mp1 round_index new_opponent_id none
                let mp3 := match p1_orig_opp with
                  | some o => setMP mp2 round_index o (some player1_id)
                  | none => mp2
                let cur1 := pySet cur p1_pair_idx
                  (if p1_was_white then (player1_id, new_opponent_id)
                   else (new_opponent_id, player1_id))
                let prev1 := addMatch t.previous_matches player1_id new_opponent_id
                (true, { t1 with
                  rounds_pairings_ids := t.rounds_pairings_ids.set round_index cur1
                  rounds_byes_ids := t.rounds_byes_ids.set round_index p1_orig_opp
                  previous_matches := prev1
                  manual_pairings := mp3 })
              else (false, t1)
    | _, _ => (false, t)

/-- Ascending order on rationals, for sorting opponent scores (line 636). -/
def ratLE (a b : ℚ) : Prop := a ≤ b

instance : DecidableRel ratLE := fun a b => by
  unfold ratLE; exact inferInstance

/-- The current total scores of the opponents a player actually faced, in
game order (lines 603–615): bye entries are skipped, and each opponent's
score is looked up live in the roster.  Models `get_opponent_objects`
followed by `self.players[opp.id].score`; an opponent id absent from the
roster resolves to no opponent. -/
def oppScoresOf (t : Tournament) (p : Player) : List ℚ :=
  p.opponent_ids.filterMap
    (fun oid => oid.bind (fun i => (findPlayer t.players i).map Player.score))

/-- The player's score from played games only (line 651): the sum of result
entries at indices whose opponent entry is not a bye. -/
def scoreFromPlayedGames (p : Player) : ℚ :=
  ((p.opponent_ids.zip p.results).filterMap
    (fun pr => if pr.1.isSome then some pr.2 else none)).sum

/-- The Modified-Median value as computed by `compute_tiebreakers`
(lines 626–671), with the code's branch structure. -/
def medianOf (t : Tournament) (p : Player) : ℚ :=
  let oppScores := oppScoresOf t p
  let sortedScores := List.insertionSort ratLE oppScores
  let n := oppScores.length
  let maxScore : ℚ := (n : ℚ) * WIN_SCORE
  let own := scoreFromPlayedGames p
  if oppScores.isEmpty then 0
  else if n = 1 then sortedScores.sum
  else if maxScore = 0 then sortedScores.sum
  else if own > maxScore / 2 then (sortedScores.drop 1).sum
  else if own < maxScore / 2 then sortedScores.dropLast.sum
  else if 2 ≤ sortedScores.length then ((sortedScores.drop 1).dropLast).sum
  else sortedScores.sum

/-- The Sonneborn–Berger sum (lines 603–623): a beaten opponent's current
score counts fully, a drawn opponent's half. -/
def sbAux (t : Tournament) : List (Option String) → List ℚ → ℚ
  | [], _ => 0
  | _ :: orest, [] => sbAux t orest []
  | oid :: orest, r :: rrest =>
    (match oid.bind (fun i => findPlayer t.players i) with
     | some opp =>
       if r = WIN_SCORE then opp.score
       else if r = DRAW_SCORE then opp.score / 2
       else 0
     | none => 0) + sbAux t orest rrest

/-- The Sonneborn–Berger tie-break of a player. -/
def sbScoreOf (t : Tournament) (p : Player) : ℚ :=
  sbAux t p.opponent_ids p.results

/-- The tie-break map one pass of `compute_tiebreakers` stores for a
processed player (lines 673–679). -/
def tiebreakersFor (t : Tournament) (p : Player) : List (String × ℚ) :=
  [(TB_MEDIAN, medianOf t p),
   (TB_SOLKOFF, (oppScoresOf t p).sum),
   (TB_CUMULATIVE, p.running_scores.sum),
   (TB_CUMULATIVE_OPP, (oppScoresOf t p).sum),
   (TB_SONNENBORN_BERGER, sbScoreOf t p),
   (TB_MOST_BLACKS, (p.num_black_games : ℚ)),
   (TB_HEAD_TO_HEAD, 0)]

/-- `Tournament.compute_tiebreakers` (lines 583–679): no round played leaves
everything untouched; fully inactive players with no history get an empty
map, everyone else the computed map.  Only the `tiebreakers` fields change,
and the computation reads only scores, so the per-player passes are
independent. -/
def compute_tiebreakers (t : Tournament) : Tournament :=
  if t.rounds_pairings_ids.isEmpty then t
  else
    { t with players := t.players.map (fun p =>
        if !p.is_active && p.results.isEmpty then { p with tiebreakers := [] }
        else { p with tiebreakers := tiebreakersFor t p }) }

/-- The result entries of `a` from games against the player with id `bId`
(the loop of `_compare_players`, lines 688–692). -/
def resultsVs (a : Player) (bId : String) : List ℚ :=
  (a.opponent_ids.zip a.results).filterMap
    (fun pr => if pr.1 = some bId then some pr.2 else none)

/-- `a` beat `b` in some recorded game, as witnessed by a `WIN_SCORE` entry
in `a`'s own history of their games (line 691). -/
def wonAgainst (a b : Player) : Bool := (resultsVs a b.id).contains WIN_SCORE

/-- `b` beat `a` in some recorded game, as witnessed by a `LOSS_SCORE` entry
in `a`'s own history of their games (line 692). -/
def lostAgainst (a b : Player) : Bool := (resultsVs a b.id).contains LOSS_SCORE

/-- `p.tiebreakers.get(tb_key, 0.0)` (lines 698–699). -/
def Player.tbGet (p : Player) (k : String) : ℚ :=
  match p.tiebreakers.find? (fun e => e.1 = k) with
  | some e => e.2
  | none => 0

/-- The tie-break / rating / name tail of `_compare_players`
(lines 697–703). -/
def tbLoop (p1 p2 : Player) : List String → Int
  | [] =>
    if p1.rating ≠ p2.rating then (if p1.rating > p2.rating then 1 else -1)
    else if p1.name ≠ p2.name then (if p1.name < p2.name then -1 else 1)
    else 0
  | k :: rest =>
    let tb1 := p1.tbGet k
    let tb2 := p2.tbGet k
    if tb1 ≠ tb2 then (if tb1 > tb2 then 1 else -1) else tbLoop p1 p2 rest

/-- `Tournament._compare_players` (lines 681–703). -/
def compare_players (t : Tournament) (p1 p2 : Player) : Int :=
  if p1.score ≠ p2.score then (if p1.score > p2.score then 1 else -1)
  else
    let p1won := wonAgainst p1 p2
    let p2won := lostAgainst p1 p2
    if p1won && !p2won then 1
    else if p2won && !p1won then -1
    else tbLoop p1 p2 t.tiebreak_order

/-- Descending comparator order for `sorted(..., reverse=True)` with
`cmp_to_key` (lines 722–726). -/
def standingsGE (t : Tournament) (a b : Player) : Prop :=
  compare_players t a b ≥ 0

instance : ∀ t, DecidableRel (standingsGE t) := fun t a b => by
  unfold standingsGE; exact inferInstance

/-- `Tournament.get_standings` (lines 705–727): recompute tie-breaks, then
stable-sort the active players descending under the comparator. -/
def get_standings (t : Tournament) : List Player :=
  if t.activePlayers.isEmpty then []
  else
    let t' := compute_tiebreakers t
    List.insertionSort (standingsGE t') t'.activePlayers

/-- Spec §4.2.B, stated from the spec's words for comparison with the code:
over a candidate pool (of active players, constructed by the caller), if some
candidate has `has_received_bye = false` take the minimum of those under
`(score asc, rating asc, name asc)`, else the minimum of the whole pool under
the same key; an empty pool yields none. -/
def specByeSelect (pool : List Player) : Option Player :=
  if pool.isEmpty then none
  else
    let noBye := pool.filter (fun p => !p.has_received_bye)
    if noBye.isEmpty then (List.insertionSort byeKeyLE pool).head?
    else (List.insertionSort byeKeyLE noBye).head?

/-- Spec §4.2 rule R5, stated from the spec's words: the player with the
larger color balance takes Black; on a balance tie the higher rating takes
White; on a further tie the lexicographically earlier name takes White.
Returns `(white, black)`. -/
def r5Assign (p1 p2 : Player) : Player × Player :=
  let b1 := p1.colorBalance
  let b2 := p2.colorBalance
  if b1 > b2 then (p2, p1)
  else if b2 > b1 then (p1, p2)
  else if p1.rating > p2.rating then (p1, p2)
  else if p2.rating > p1.rating then (p2, p1)
  else if ¬ p2.name < p1.name then (p1, p2)
  else (p2, p1)

/-- Spec §4.4 MEDIAN, stated from the spec's enumerated cases: sort the
opponents' scores ascending, let `n` be the number of games against
opponents, `own` the played-games score and `half = n · WIN_SCORE / 2`;
return 0 for `n = 0`, the single score for `n = 1`, and otherwise the sum
after dropping the lowest (`own > half`), the highest (`own < half`) or both
extremes (`own = half`, `n ≥ 2`). -/
def specMedian (t : Tournament) (p : Player) : ℚ :=
  let oppScores := oppScoresOf t p
  let sortedScores := List.insertionSort ratLE oppScores
  let n := oppScores.length
  let own := scoreFromPlayedGames p
  let half : ℚ := (n : ℚ) * WIN_SCORE / 2
  if n = 0 then 0
  else if n = 1 then sortedScores.sum
  else if own > half then (sortedScores.drop 1).sum
  else if own < half then sortedScores.dropLast.sum
  else ((sortedScores.drop 1).dropLast).sum

/-- Spec §4.4 comparison, steps 3–5 stated from the spec's words: walk the
tie-break keys in order, larger value winning, then rating descending, then
name ascending. -/
def specTbWalk (a b : Player) : List String → Int
  | [] =>
    if a.rating > b.rating then 1
    else if b.rating > a.rating then -1
    else if a.name < b.name then -1
    else if b.name < a.name then 1
    else 0
  | k :: rest =>
    if a.tbGet k > b.tbGet k then 1
    else if b.tbGet k > a.tbGet k then -1
    else specTbWalk a b rest

/-- Spec §4.4 total ordering, stated from the spec's five steps: score
descending; head-to-head (`a` beat `b` and `b` never beat `a`, judged from
the recorded results of their games, makes `a` greater, and symmetrically);
the tie-break keys in order; rating descending; name ascending. -/
def specCompare (t : Tournament) (a b : Player) : Int :=
  if a.score > b.score then 1
  else if b.score > a.score then -1
  else if wonAgainst a b && !lostAgainst a b then 1
  else if lostAgainst a b && !wonAgainst a b then -1
  else specTbWalk a b t.tiebreak_order

/-- A fresh active player with empty history. -/
def mkPlayer (i n : String) (rat : Int) : Player :=
  ⟨i, n, rat, true, [], [], [], false, [], [], 0, []⟩

/-- Concrete state for the leftover-pool bye check: rating 1500, score 1,
never had a bye. -/
def pA : Player :=
  { mkPlayer "a" "A" 1500 with
    results := [1, 0], opponent_ids := [some "b", some "c"]
    color_history := [some Color.white, some Color.black]
    running_scores := [1, 1], num_black_games := 1 }

/-- Concrete state: rating 1400, score 1, never had a bye. -/
def pB : Player :=
  { mkPlayer "b" "B" 1400 with
    results := [0, 1], opponent_ids := [some "a", some "c"]
    color_history := [some Color.black, some Color.white]
    running_scores := [0, 1], num_black_games := 1 }

/-- Concrete state: rating 1300, score 1, already had a bye. -/
def pC : Player :=
  { mkPlayer "c" "C" 1300 with
    results := [1, 0], opponent_ids := [none, some "a"]
    color_history := [none, some Color.white]
    has_received_bye := true, running_scores := [1, 1] }

/-- A three-player tournament entering round 3 with every pair already
played, so the whole score group ends up in the leftovers pool. -/
def tPool : Tournament :=
  ⟨"T", [pA, pB, pC], 4, [], [[("a", "b")], [("a", "c")]],
   [some "c", none], [("a", "b"), ("a", "c"), ("b", "c")], []⟩

/-- Concrete player whose color preference is White by balance (history
B, W, B; balance −1). -/
def pP : Player :=
  { mkPlayer "p" "P" 1000 with
    results := [1, 1, 1], opponent_ids := [some "x", some "y", some "z"]
    color_history := [some Color.black, some Color.white, some Color.black]
    running_scores := [1, 2, 3], num_black_games := 2 }

/-- Concrete player whose color preference is White by streak (history B, B;
balance −2). -/
def pQ : Player :=
  { mkPlayer "q" "Q" 1000 with
    results := [1, 1], opponent_ids := [some "u", some "v"]
    color_history := [some Color.black, some Color.black]
    running_scores := [1, 2], num_black_games := 2 }

/-- An inactive (withdrawn) player. -/
def pInact : Player := { mkPlayer "z" "Z" 900 with is_active := false }

/-- A trivial tournament used as ambient state. -/
def tTriv : Tournament := ⟨"T", [pInact], 1, [], [], [], [], []⟩

/-- Four active players, round 0 paired (a, b) only, no overrides yet. -/
def tAdj : Tournament :=
  ⟨"T", [mkPlayer "a" "A" 1200, mkPlayer "b" "B" 1100,
         mkPlayer "c" "C" 1000, mkPlayer "d" "D" 900],
   2, [], [[("a", "b")]], [none], [("a", "b")], []⟩

/-- Player `a` with the round-0 game against `b` already recorded. -/
def pRa : Player :=
  { mkPlayer "a" "A" 1200 with
    results := [1], opponent_ids := [some "b"]
    color_history := [some Color.white], running_scores := [1] }

/-- Player `b` with the round-0 game against `a` already recorded. -/
def pRb : Player :=
  { mkPlayer "b" "B" 1100 with
    results := [0], opponent_ids := [some "a"]
    color_history := [some Color.black], running_scores := [0]
    num_black_games := 1 }

/-- A tournament whose round-0 result (a beat b) is already recorded. -/
def tRec : Tournament :=
  ⟨"T", [pRa, pRb], 1, [], [[("a", "b")]], [none], [("a", "b")], []⟩

/-- Player `a` with a round-0 entry against a different opponent `z`. -/
def pMa : Player :=
  { mkPlayer "a" "A" 1200 with results := [1], opponent_ids := [some "z"] }

/-- Player `b` with a round-0 entry against a different opponent `y`. -/
def pMb : Player :=
  { mkPlayer "b" "B" 1100 with results := [0], opponent_ids := [some "y"] }

/-- A one-player tournament (odd roster for round 1). -/
def tOne : Tournament := ⟨"T", [mkPlayer "a" "A" 1000], 1, [], [], [], [], []⟩

/-! ### Helper lemmas -/

/-- A nonempty all-active pool always yields a bye player. -/
theorem get_eligible_some (pool : List Player) (hne : pool ≠ [])
    (hact : ∀ p ∈ pool, p.is_active = true) :
    ∃ q, get_eligible_bye_player pool = some q := by
  unfold get_eligible_bye_player
  have hfil : pool.filter (fun p => p.is_active) = pool :=
    List.filter_eq_self.mpr (by intro a ha; simpa using hact a ha)
  rw [hfil]
  have hie : pool.isEmpty = false := by
    cases pool with
    | nil => exact absurd rfl hne
    | cons a l => rfl
  simp only [hie, Bool.false_eq_true, if_false]
  by_cases hf : (pool.filter (fun p => !p.has_received_bye)).isEmpty
  · rw [if_pos hf]
    have hlen : (List.insertionSort byeKeyLE pool).length = pool.length :=
      List.length_insertionSort byeKeyLE pool
    cases hs : List.insertionSort byeKeyLE pool with
    | nil =>
      rw [hs] at hlen
      cases pool with
      | nil => exact absurd rfl hne
      | cons a l => simp at hlen
    | cons q l => exact ⟨q, rfl⟩
  · rw [if_neg hf]
    have hne2 : pool.filter (fun p => !p.has_received_bye) ≠ [] := by
      intro h; rw [h] at hf; exact hf rfl
    have hlen : (List.insertionSort byeKeyLE (pool.filter (fun p => !p.has_received_bye))).length
        = (pool.filter (fun p => !p.has_received_bye)).length :=
      List.length_insertionSort byeKeyLE _
    cases hs : List.insertionSort byeKeyLE (pool.filter (fun p => !p.has_received_bye)) with
    | nil =>
      rw [hs] at hlen
      cases hp : pool.filter (fun p => !p.has_received_bye) with
      | nil => exact absurd hp hne2
      | cons a l => rw [hp] at hlen; simp at hlen
    | cons q l => exact ⟨q, rfl⟩

/-- An active singleton pool yields exactly that player as the bye. -/
theorem get_eligible_singleton (p : Player) (h : p.is_active = true) :
    get_eligible_bye_player [p] = some p := by
  unfold get_eligible_bye_player
  cases hb : p.has_received_bye <;>
    simp [h, hb, List.insertionSort, List.orderedInsert]

/-! ### C2 — color assignment -/

/-- C2 fails on the code: `pP` and `pQ` both prefer White (so none of R1–R4
applies), `pP` has the larger color balance (−1 vs −2), yet `assignColors`
gives White to `pP` via the `pref1 == W` arm (line 204) while rule R5 would
give `pP` Black. -/
theorem C2_counterexample :
    pP.get_color_preference = some Color.white ∧
    pQ.get_color_preference = some Color.white ∧
    pP.colorBalance > pQ.colorBalance ∧
    assignColors pP pQ = (pP, pQ) ∧
    r5Assign pP pQ = (pQ, pP) :=
  ⟨by with_unfolding_all rfl, by with_unfolding_all rfl,
   by with_unfolding_all decide, by with_unfolding_all rfl,
   by with_unfolding_all rfl⟩

/-- C2 (amended): when the two color preferences are equal, the colors are
assigned by rule R5 only if both preferences are absent (then the larger
balance takes Black and, on a balance tie, the first player takes White iff
its rating is ≥ the other's — within `create_pairings` the first player is
the earlier one in (rating desc, name asc) order, so this agrees with
"higher rating, then earlier name, takes White" whenever it decides);
when both prefer White the first player takes White, and when both prefer
Black the second does. -/
theorem C2_same_pref_assignment (p1 p2 : Player)
    (h : p1.get_color_preference = p2.get_color_preference) :
    assignColors p1 p2 =
      match p1.get_color_preference with
      | some Color.white => (p1, p2)
      | some Color.black => (p2, p1)
      | none =>
        if p1.colorBalance > p2.colorBalance then (p2, p1)
        else if p2.colorBalance > p1.colorBalance then (p1, p2)
        else if p1.rating ≥ p2.rating then (p1, p2) else (p2, p1) := by
  unfold assignColors
  cases hp : p1.get_color_preference with
  | none => simp [hp, ← h, hp]
  | some c =>
    cases c with
    | white => simp [hp, ← h, hp]
    | black => simp [hp, ← h, hp]

/-- Witness for `C2_same_pref_assignment` at two concrete players with no
color history: both preferences absent, balances equal, ratings 1000 ≥ 900,
so the first takes White. -/
theorem C2_same_pref_assignment_witness :
    assignColors (mkPlayer "m" "M" 1000) (mkPlayer "n" "N" 900) =
      (mkPlayer "m" "M" 1000, mkPlayer "n" "N" 900) := by
  have h := C2_same_pref_assignment (mkPlayer "m" "M" 1000) (mkPlayer "n" "N" 900) rfl
  rw [h]
  with_unfolding_all rfl

/-! ### C5 — failed operations and state -/

/-- C5 fails on the code: adjusting player `c` (present in the roster but in
no pairing and not the bye of round 0) fails at line 392, yet the empty
override dict inserted at line 363 remains: `manual_pairings` grows from `[]`
to `[(0, [])]`. -/
theorem C5_counterexample :
    (manually_adjust_pairing tAdj 0 "c" "d").1 = false ∧
    (manually_adjust_pairing tAdj 0 "c" "d").2.manual_pairings = [(0, [])] ∧
    tAdj.manual_pairings = [] ∧
    ¬ (manually_adjust_pairing tAdj 0 "c" "d").2 = tAdj := by
  refine ⟨by with_unfolding_all rfl, by with_unfolding_all rfl, rfl, ?_⟩
  intro h
  have h2 := congrArg Tournament.manual_pairings h
  rw [show (manually_adjust_pairing tAdj 0 "c" "d").2.manual_pairings = [(0, [])] from
    by with_unfolding_all rfl] at h2
  exact List.noConfusion h2

/-- C5 (amended): only failures detected before any mutation leave the state
unchanged — in particular an out-of-range round index makes both
`manually_adjust_pairing` and `record_results` return failure with the
tournament untouched; failures detected later can leave partial mutations
(an empty override entry, a recorded prefix of results). -/
theorem C5_early_failures_preserve_state (t : Tournament) (idx : Nat)
    (a b : String) (rs : List (String × String × ℚ))
    (h : t.rounds_pairings_ids.length ≤ idx) :
    manually_adjust_pairing t idx a b = (false, t) ∧
    record_results t idx rs = (false, t) := by
  constructor
  · unfold manually_adjust_pairing
    rw [if_pos h]
  · unfold record_results
    rw [if_neg (by omega)]

/-- Witness for `C5_early_failures_preserve_state` at a concrete state and
round index 5 (out of range). -/
theorem C5_early_failures_preserve_state_witness :
    manually_adjust_pairing tTriv 5 "z" "z" = (false, tTriv) ∧
    record_results tTriv 5 [] = (false, tTriv) :=
  C5_early_failures_preserve_state tTriv 5 "z" "z" [] (by decide)

/-! ### C6 — double recording -/

/-- C6 fails on the code: round 0 between `a` and `b` is already recorded
(each has one result entry), yet `record_results` succeeds and appends a
second entry for the same round, because the only rejection test (line 535)
compares white's stored opponent with black and they agree. -/
theorem C6_counterexample :
    pRa.results.length = 1 ∧
    (record_results tRec 0 [("a", "b", 1)]).1 = true ∧
    ((findPlayer (record_results tRec 0 [("a", "b", 1)]).2.players "a").map
      (fun p => p.results.length)) = some 2 ∧
    ((findPlayer (record_results tRec 0 [("a", "b", 1)]).2.players "b").map
      (fun p => p.results.length)) = some 2 :=
  ⟨rfl, by with_unfolding_all rfl, by with_unfolding_all rfl,
   by with_unfolding_all rfl⟩

/-- C6 (amended): `record_results` never signals an already-recorded error;
a game entry is rejected (failure flag, nothing appended for it) exactly when
one of the two named players already has a result entry for the round index
**and** white's stored opponent for that index exists and differs from black;
otherwise the entry is appended again even if already recorded. -/
theorem C6_mismatch_rejects_entry (ri : Nat) (players : List Player)
    (flag : Bool) (w b : String) (s : ℚ) (pw pb : Player)
    (hw : findPlayer players w = some pw) (hb : findPlayer players b = some pb)
    (hlen : ri < pw.results.length ∨ ri < pb.results.length)
    (hmm : mismatchAt pw ri b = true) :
    processEntry ri (players, flag) (w, b, s) = (players, false) := by
  unfold processEntry
  dsimp only
  rw [hw, hb]
  have hc : (decide (ri < pw.results.length) || decide (ri < pb.results.length)) = true := by
    rcases hlen with h | h <;> simp [h]
  dsimp only
  rw [hc, hmm]
  rfl

/-- Witness for `C6_mismatch_rejects_entry`: white `a` has a round-0 entry
whose stored opponent is `z`, not `b`, so the entry is rejected and the
player list is unchanged. -/
theorem C6_mismatch_rejects_entry_witness :
    processEntry 0 ([pMa, pMb], true) ("a", "b", 1) = ([pMa, pMb], false) :=
  C6_mismatch_rejects_entry 0 [pMa, pMb] true "a" "b" 1 pMa pMb rfl rfl
    (Or.inl (by decide)) (by decide)

/-! ### C10 — black's recorded score -/

/-- Lookup after an id-preserving in-place update. -/
theorem findPlayer_updatePlayer (ps : List Player) (pid q : String)
    (f : Player → Player) (hf : ∀ p, (f p).id = p.id) :
    findPlayer (updatePlayer ps pid f) q =
      (findPlayer ps q).map (fun p => if p.id = pid then f p else p) := by
  induction ps with
  | nil => rfl
  | cons p rest ih =>
    have hid : (if p.id = pid then f p else p).id = p.id := by
      split
      · exact hf p
      · rfl
    unfold findPlayer updatePlayer
    by_cases hq : p.id = q
    · have h1 : (decide ((if p.id = pid then f p else p).id = q)) = true := by
        rw [hid]; exact decide_eq_true hq
      have h2 : (decide (p.id = q)) = true := decide_eq_true hq
      simp only [List.map_cons, List.find?_cons, h1, h2]
      rfl
    · have h1 : (decide ((if p.id = pid then f p else p).id = q)) = false := by
        rw [hid]; exact decide_eq_false hq
      have h2 : (decide (p.id = q)) = false := decide_eq_false hq
      simp only [List.map_cons, List.find?_cons, h1, h2]
      exact ih

/-- C10: for every game entry `record_results` accepts, white's appended
result is `white_score` and black's is `WIN_SCORE − white_score`, so the two
recorded results sum to `WIN_SCORE` (black's score is never supplied by the
caller — the entry type carries only white's). -/
theorem C10_black_score_complement (ri : Nat) (players : List Player)
    (flag : Bool) (w b : String) (s : ℚ) (pw pb : Player)
    (hw : findPlayer players w = some pw) (hb : findPlayer players b = some pb)
    (hwb : w ≠ b)
    (hacc : ((decide (ri < pw.results.length) || decide (ri < pb.results.length)) &&
      mismatchAt pw ri b) = false) :
    (processEntry ri (players, flag) (w, b, s)).2 = flag ∧
    findPlayer (processEntry ri (players, flag) (w, b, s)).1 w =
      some (pw.add_round_result (some pb.id) s (some Color.white)) ∧
    findPlayer (processEntry ri (players, flag) (w, b, s)).1 b =
      some (pb.add_round_result (some pw.id) (WIN_SCORE - s) (some Color.black)) ∧
    s + (WIN_SCORE - s) = WIN_SCORE := by
  have hpwid : pw.id = w := by
    have := List.find?_some hw
    simpa using this
  have hpbid : pb.id = b := by
    have := List.find?_some hb
    simpa using this
  have hres : processEntry ri (players, flag) (w, b, s) =
      (updatePlayer (updatePlayer players w
          (fun p => p.add_round_result (some pb.id) s (some Color.white))) b
          (fun p => p.add_round_result (some pw.id) (WIN_SCORE - s) (some Color.black)),
        flag) := by
    unfold processEntry
    dsimp only
    rw [hw, hb]
    dsimp only
    rw [hacc]
    rfl
  have hu : ∀ (ps : List Player) (pid q : String) (oid : Option String)
      (sc : ℚ) (col : Option Color),
      findPlayer (updatePlayer ps pid (fun p => p.add_round_result oid sc col)) q =
        (findPlayer ps q).map
          (fun p => if p.id = pid then p.add_round_result oid sc col else p) :=
    fun ps pid q oid sc col =>
      findPlayer_updatePlayer ps pid q (fun p => p.add_round_result oid sc col)
        (fun _ => rfl)
  rw [hres]
  refine ⟨rfl, ?_, ?_, by ring⟩
  · rw [hu, hu, hw]
    simp only [Option.map]
    rw [if_pos hpwid]
    have h3 : ¬ (pw.add_round_result (some pb.id) s (some Color.white)).id = b := by
      show ¬ pw.id = b
      rw [hpwid]; exact hwb
    rw [if_neg h3]
  · rw [hu, hu, hb]
    simp only [Option.map]
    have h3 : ¬ pb.id = w := by rw [hpbid]; exact Ne.symm hwb
    rw [if_neg h3, if_pos hpbid]

/-- Witness for `C10_black_score_complement`: two fresh players, white wins
with score 1, black is recorded with `WIN_SCORE − 1`. -/
theorem C10_black_score_complement_witness :
    (processEntry 0 ([mkPlayer "a" "A" 1200, mkPlayer "b" "B" 1100], true)
      ("a", "b", 1)).2 = true ∧
    findPlayer (processEntry 0 ([mkPlayer "a" "A" 1200, mkPlayer "b" "B" 1100], true)
      ("a", "b", 1)).1 "a" =
      some ((mkPlayer "a" "A" 1200).add_round_result (some "b") 1 (some Color.white)) ∧
    findPlayer (processEntry 0 ([mkPlayer "a" "A" 1200, mkPlayer "b" "B" 1100], true)
      ("a", "b", 1)).1 "b" =
      some ((mkPlayer "b" "B" 1100).add_round_result (some "a") (WIN_SCORE - 1) (some Color.black)) ∧
    (1 : ℚ) + (WIN_SCORE - 1) = WIN_SCORE :=
  C10_black_score_complement 0 [mkPlayer "a" "A" 1200, mkPlayer "b" "B" 1100]
    true "a" "b" 1 (mkPlayer "a" "A" 1200) (mkPlayer "b" "B" 1100)
    rfl rfl (by decide) (by decide)

/-! ### C3 — infeasible bye -/

/-- C3 fails on the code: with an odd remainder whose only candidate is
inactive, `_get_eligible_bye_player` returns none, yet the leftover
finalization emits an ordinary round (pairings entry `[]`, bye entry none)
and signals nothing — no `PairingInfeasible` error exists in the code
(lines 246–253 log and proceed). -/
theorem C3_counterexample :
    pInact.is_active = false ∧
    [pInact].length % 2 = 1 ∧
    get_eligible_bye_player [pInact] = none ∧
    (finishRound tTriv tTriv.previous_matches [] [] [pInact]).bye = none ∧
    (finishRound tTriv tTriv.previous_matches [] [] [pInact]).pairings = [] ∧
    (finishRound tTriv tTriv.previous_matches [] [] [pInact]).t.rounds_byes_ids
      = tTriv.rounds_byes_ids ++ [none] ∧
    (finishRound tTriv tTriv.previous_matches [] [] [pInact]).t.rounds_pairings_ids
      = tTriv.rounds_pairings_ids ++ [[]] :=
  ⟨rfl, rfl, by with_unfolding_all rfl, by with_unfolding_all rfl,
   by with_unfolding_all rfl, by with_unfolding_all rfl,
   by with_unfolding_all rfl⟩

/-- C3 (amended): `create_pairings` never signals an error — no
`PairingInfeasible` exists.  Inside `create_pairings` the no-eligible-bye
situation cannot arise: the leftovers come from the active players, and
whenever the leftover pool of a subsequent round is odd and all its members
are active, a bye **is** assigned.  (If the candidate were ineligible, the
round would still be emitted as an ordinary result with no bye, as the
counterexample shows.) -/
theorem C3_bye_assigned_for_active_pool (t : Tournament)
    (prev : List (String × String)) (updates : List Player)
    (groupPairs : List (Player × Player)) (carry : List Player)
    (hact : ∀ p ∈ carry, p.is_active = true)
    (hodd : (List.insertionSort seedLE carry).length % 2 = 1) :
    ∃ bp, (finishRound t prev updates groupPairs carry).bye = some bp := by
  unfold finishRound
  have hne : List.insertionSort seedLE carry ≠ [] := by
    intro h
    rw [h] at hodd
    simp at hodd
  obtain ⟨cand, hcand⟩ : ∃ c, (List.insertionSort seedLE carry).getLast? = some c := by
    cases hq : (List.insertionSort seedLE carry).getLast? with
    | none => exact absurd (List.getLast?_eq_none_iff.mp hq) hne
    | some c => exact ⟨c, rfl⟩
  have hmem : cand ∈ carry :=
    (List.mem_insertionSort seedLE).mp (List.mem_of_getLast?_eq_some hcand)
  have hc : cand.is_active = true := hact _ hmem
  refine ⟨cand, ?_⟩
  simp only [hodd, if_pos, hcand, get_eligible_singleton cand hc]

/-- Witness for `C3_bye_assigned_for_active_pool` at the concrete leftovers
pool `[pA, pB, pC]` (all active, odd): the code assigns a bye. -/
theorem C3_bye_assigned_for_active_pool_witness :
    ∃ bp, (finishRound tPool tPool.previous_matches [] [] [pA, pB, pC]).bye = some bp :=
  C3_bye_assigned_for_active_pool tPool tPool.previous_matches [] [] [pA, pB, pC]
    (by intro p hp; fin_cases hp <;> rfl) (by with_unfolding_all rfl)

/-! ### C7 — Modified Median -/

/-- C7: the Modified-Median value computed by `compute_tiebreakers` agrees
with the spec's enumerated cases for every player: 0 with no opponents, the
single opponent's score with one, and otherwise the sum of the ascending
opponent scores dropping the lowest / highest / both extremes according to
the played-games score against `half = n × WIN_SCORE / 2`. -/
theorem C7_median_matches_spec (t : Tournament) (p : Player) :
    medianOf t p = specMedian t p := by
  unfold medianOf specMedian
  dsimp only
  set l := oppScoresOf t p with hl
  have hlen : (List.insertionSort ratLE l).length = l.length :=
    List.length_insertionSort ratLE l
  by_cases h0 : l.isEmpty
  · have hnil : l = [] := by simpa using h0
    simp [h0, hnil]
  · have hne : l ≠ [] := by simpa using h0
    have hn0 : ¬ l.length = 0 := by simpa [List.length_eq_zero] using hne
    by_cases h1 : l.length = 1
    · simp [h0, h1]
    · have h2 : 2 ≤ l.length := by omega
      have hmax : ¬ ((l.length : ℚ) * WIN_SCORE = 0) := by
        rw [WIN_SCORE, mul_one]
        exact_mod_cast hn0
      have hsl : 2 ≤ (List.insertionSort ratLE l).length := by rw [hlen]; exact h2
      simp [h0, h1, hn0, hmax, hsl, h2]

/-! ### C8 — the standings comparator -/

/-- The tie-break / rating / name tails of the code comparator and the
spec's ordering agree. -/
theorem tbLoop_eq_specTbWalk (a b : Player) :
    ∀ ks, tbLoop a b ks = specTbWalk a b ks := by
  intro ks
  induction ks with
  | nil =>
    unfold tbLoop specTbWalk
    rcases lt_trichotomy a.rating b.rating with h | h | h
    · simp [ne_of_lt h, lt_asymm h, h]
    · simp only [h, ne_eq, not_true_eq_false, if_false, lt_irrefl, if_neg]
      rcases lt_trichotomy a.name b.name with hn | hn | hn
      · simp [ne_of_lt hn, hn, lt_asymm hn]
      · simp [hn, lt_irrefl]
      · simp [(ne_of_lt hn).symm, hn, lt_asymm hn]
    · simp [(ne_of_lt h).symm, h, lt_asymm h]
  | cons k rest ih =>
    unfold tbLoop specTbWalk
    rcases lt_trichotomy (a.tbGet k) (b.tbGet k) with h | h | h
    · simp [ne_of_lt h, lt_asymm h, h]
    · simpa [h, lt_irrefl] using ih
    · simp [(ne_of_lt h).symm, h, lt_asymm h]

/-- C8: `_compare_players` implements exactly the spec's five-step ordering:
score descending, head-to-head (a win by `a` over `b` with no win by `b`
over `a`, judged from the recorded results of their games), the tie-break
keys of `tiebreak_order` in sequence with larger values winning, rating
descending, and name ascending as the final fallback. -/
theorem C8_compare_matches_spec (t : Tournament) (p1 p2 : Player) :
    compare_players t p1 p2 = specCompare t p1 p2 := by
  unfold compare_players specCompare
  rcases lt_trichotomy p1.score p2.score with h | h | h
  · simp [ne_of_lt h, lt_asymm h, h]
  · simp only [h, ne_eq, not_true_eq_false, if_false, lt_irrefl, if_neg]
    cases hw : wonAgainst p1 p2 <;> cases hl : lostAgainst p1 p2 <;>
      simp [hw, hl, tbLoop_eq_specTbWalk]
  · simp [(ne_of_lt h).symm, h, lt_asymm h]

/-! ### C9 — the round history lists grow together -/

/-- C9: with a nonempty active roster, one call to `create_pairings` appends
exactly one entry to `rounds_pairings_ids` and one to `rounds_byes_ids`;
with an empty roster it appends to neither and leaves the state unchanged.
In particular the two lists keep equal lengths. -/
theorem C9_round_lists_grow_together (t : Tournament) (r : Int)
    (h : t.rounds_pairings_ids.length = t.rounds_byes_ids.length) :
    ((create_pairings t r).t.rounds_pairings_ids.length =
      (create_pairings t r).t.rounds_byes_ids.length) ∧
    (t.activePlayers.isEmpty = false →
      (create_pairings t r).t.rounds_pairings_ids.length
        = t.rounds_pairings_ids.length + 1 ∧
      (create_pairings t r).t.rounds_byes_ids.length
        = t.rounds_byes_ids.length + 1) ∧
    (t.activePlayers.isEmpty = true → (create_pairings t r).t = t) := by
  unfold create_pairings
  cases he : t.activePlayers.isEmpty
  · by_cases hr : r = 1
    · simp [he, hr, round1Pairings, h]
    · simp [he, hr, finishRound, h]
  · simp [he, h]

/-- Witness for `C9_round_lists_grow_together` at a one-player tournament:
both history lists grow from length 0 to length 1. -/
theorem C9_round_lists_grow_together_witness :
    ((create_pairings tOne 1).t.rounds_pairings_ids.length =
      (create_pairings tOne 1).t.rounds_byes_ids.length) ∧
    (tOne.activePlayers.isEmpty = false →
      (create_pairings tOne 1).t.rounds_pairings_ids.length
        = tOne.rounds_pairings_ids.length + 1 ∧
      (create_pairings tOne 1).t.rounds_byes_ids.length
        = tOne.rounds_byes_ids.length + 1) ∧
    (tOne.activePlayers.isEmpty = true → (create_pairings tOne 1).t = tOne) :=
  C9_round_lists_grow_together tOne 1 rfl

/-! ### Structural lemmas for the pairing loops -/

/-- `pickFirst` removes exactly one element. -/
theorem pickFirst_length {pred : Player → Bool} :
    ∀ {l : List Player} {y : Player} {ys : List Player},
      pickFirst pred l = some (y, ys) → ys.length + 1 = l.length := by
  intro l
  induction l with
  | nil => intro y ys h; simp [pickFirst] at h
  | cons x xs ih =>
    intro y ys h
    unfold pickFirst at h
    by_cases hx : pred x
    · rw [if_pos hx] at h
      simp only [Option.some.injEq, Prod.mk.injEq] at h
      rw [← h.2]
      simp
    · rw [if_neg hx] at h
      cases hrec : pickFirst pred xs with
      | none => rw [hrec] at h; simp at h
      | some pr =>
        obtain ⟨y', ys'⟩ := pr
        rw [hrec] at h
        simp only [Option.some.injEq, Prod.mk.injEq] at h
        have hlen := ih hrec
        rw [← h.2]
        simp only [List.length_cons]
        omega

/-- `pickFirst` returns an element of the list and a sublist of elements. -/
theorem pickFirst_mem {pred : Player → Bool} :
    ∀ {l : List Player} {y : Player} {ys : List Player},
      pickFirst pred l = some (y, ys) → y ∈ l ∧ ∀ x ∈ ys, x ∈ l := by
  intro l
  induction l with
  | nil => intro y ys h; simp [pickFirst] at h
  | cons x xs ih =>
    intro y ys h
    unfold pickFirst at h
    by_cases hx : pred x
    · rw [if_pos hx] at h
      simp only [Option.some.injEq, Prod.mk.injEq] at h
      refine ⟨h.1 ▸ List.mem_cons_self x xs, ?_⟩
      intro z hz
      rw [← h.2] at hz
      exact List.mem_cons_of_mem x hz
    · rw [if_neg hx] at h
      cases hrec : pickFirst pred xs with
      | none => rw [hrec] at h; simp at h
      | some pr =>
        obtain ⟨y', ys'⟩ := pr
        rw [hrec] at h
        simp only [Option.some.injEq, Prod.mk.injEq] at h
        obtain ⟨hmem, hsub⟩ := ih hrec
        refine ⟨h.1 ▸ List.mem_cons_of_mem x hmem, ?_⟩
        intro z hz
        rw [← h.2] at hz
        rcases List.mem_cons.mp hz with hz | hz
        · exact hz ▸ List.mem_cons_self x xs
        · exact List.mem_cons_of_mem x (hsub z hz)

/-- `bestOpponent` removes exactly one element from the candidate list. -/
theorem bestOpponent_length {prev : List (String × String)} {p1 p2 : Player}
    {rest rest' : List Player}
    (h : bestOpponent prev p1 rest = some (p2, rest')) :
    rest'.length + 1 = rest.length := by
  unfold bestOpponent at h
  cases h1 : pickFirst
      (fun c => !matchedBefore prev p1.id c.id && !sameNonNullPref p1 c) rest with
  | some pr => rw [h1] at h; exact pickFirst_length (h1.trans h)
  | none => rw [h1] at h; exact pickFirst_length h

/-- `bestOpponent` keeps only elements of the candidate list. -/
theorem bestOpponent_mem {prev : List (String × String)} {p1 p2 : Player}
    {rest rest' : List Player}
    (h : bestOpponent prev p1 rest = some (p2, rest')) :
    p2 ∈ rest ∧ ∀ x ∈ rest', x ∈ rest := by
  unfold bestOpponent at h
  cases h1 : pickFirst
      (fun c => !matchedBefore prev p1.id c.id && !sameNonNullPref p1 c) rest with
  | some pr => rw [h1] at h; exact pickFirst_mem (h1.trans h)
  | none => rw [h1] at h; exact pickFirst_mem h

/-- The in-group pairing loop partitions its input: each pass either pairs
two players or carries one. -/
theorem pairLoopF_parity :
    ∀ (fuel : Nat) (prev : List (String × String)) (l : List Player),
      l.length ≤ fuel →
      l.length = 2 * (pairLoopF fuel prev l).pairs.length +
        (pairLoopF fuel prev l).carried.length := by
  intro fuel
  induction fuel with
  | zero =>
    intro prev l h
    have : l = [] := List.length_eq_zero.mp (Nat.le_zero.mp h)
    subst this
    simp [pairLoopF]
  | succ fuel ih =>
    intro prev l h
    match l with
    | [] => simp [pairLoopF]
    | [p] => simp [pairLoopF]
    | p1 :: q :: rest =>
      rw [pairLoopF]
      cases hb : bestOpponent prev p1 (q :: rest) with
      | some pr =>
        obtain ⟨p2, rest'⟩ := pr
        have hlen : rest'.length + 1 = (q :: rest).length := bestOpponent_length hb
        have hfuel : rest'.length ≤ fuel := by
          simp only [List.length_cons] at hlen h
          omega
        have hrec := ih (addMatch prev p1.id p2.id) rest' hfuel
        dsimp only
        simp only [List.length_cons] at hlen ⊢
        omega
      | none =>
        have hfuel : (q :: rest).length ≤ fuel := by
          simp only [List.length_cons] at h ⊢
          omega
        have hrec := ih prev (q :: rest) hfuel
        dsimp only
        simp only [List.length_cons] at hrec ⊢
        omega

/-- The carried players of the in-group pairing loop come from its input. -/
theorem pairLoopF_carried_mem :
    ∀ (fuel : Nat) (prev : List (String × String)) (l : List Player),
      ∀ x ∈ (pairLoopF fuel prev l).carried, x ∈ l := by
  intro fuel
  induction fuel with
  | zero => intro prev l x hx; simpa [pairLoopF] using hx
  | succ fuel ih =>
    intro prev l x hx
    match l with
    | [] => simp [pairLoopF] at hx
    | [p] => simp [pairLoopF] at hx; simp [hx]
    | p1 :: q :: rest =>
      rw [pairLoopF] at hx
      cases hb : bestOpponent prev p1 (q :: rest) with
      | some pr =>
        obtain ⟨p2, rest'⟩ := pr
        rw [hb] at hx
        simp only [LoopOut.carried] at hx
        have := ih (addMatch prev p1.id p2.id) rest' x hx
        exact List.mem_cons_of_mem p1 ((bestOpponent_mem hb).2 x this)
      | none =>
        rw [hb] at hx
        simp only [LoopOut.carried] at hx
        rcases List.mem_cons.mp hx with hx | hx
        · exact hx ▸ List.mem_cons_self p1 (q :: rest)
        · exact List.mem_cons_of_mem p1 (ih prev (q :: rest) x hx)

/-- On a nonempty merged group, `selectFloater` picks a member, appends the
round to its float history, and removes it from the group. -/
theorem selectFloater_of_ne_nil (r : Int) (floated : List String)
    {merged : List Player} (hne : merged ≠ []) :
    ∃ f ∈ merged,
      (selectFloater r floated merged).1
        = some { f with float_history := f.float_history ++ [r] } ∧
      (selectFloater r floated merged).2.1
        = merged.eraseP (fun p => p.id = f.id) := by
  unfold selectFloater
  dsimp only
  set candidates := merged.filter (fun p => !floated.contains p.id) with hcand
  set c2 := (if candidates.isEmpty = true then merged else candidates) with hc2
  have hc2sub : ∀ x ∈ c2, x ∈ merged := by
    intro x hx
    rw [hc2] at hx
    split at hx
    · exact hx
    · exact List.mem_of_mem_filter hx
  have hc2ne : c2 ≠ [] := by
    rw [hc2]
    split
    · exact hne
    · rename_i hc
      intro hh
      rw [hh] at hc
      exact hc rfl
  have hsne : List.insertionSort floatKeyLE c2 ≠ [] := by
    intro hh
    apply hc2ne
    have hl := List.length_insertionSort floatKeyLE c2
    rw [hh] at hl
    exact List.length_eq_zero.mp hl.symm
  obtain ⟨f, rest, hf⟩ := List.exists_cons_of_ne_nil hsne
  have hfmem : f ∈ merged := by
    apply hc2sub
    apply (List.mem_insertionSort floatKeyLE).mp
    rw [hf]
    exact List.mem_cons_self f rest
  refine ⟨f, hfmem, ?_, ?_⟩ <;> rw [hf] <;> rfl

/-- The carry leaving the score-group phase has the parity of the carry
entering it plus all group sizes: each group pairs players two at a time and
moves every other member (floater or unpaired) into the carry. -/
theorem processGroups_carry_parity (r : Int) :
    ∀ (groups : List (ℚ × List Player)) (prev : List (String × String))
      (floated : List String) (carry updates : List Player),
      (processGroups r prev floated carry updates groups).carry.length % 2
        = (carry.length + (groups.map (fun g => g.2.length)).sum) % 2 := by
  intro groups
  induction groups with
  | nil => intro prev floated carry updates; simp [processGroups]
  | cons g rest ih =>
    intro prev floated carry updates
    obtain ⟨s, grp⟩ := g
    rw [processGroups]
    dsimp only
    set merged := List.insertionSort seedLE (carry ++ List.insertionSort seedLE grp) with hm
    have hmlen : merged.length = carry.length + grp.length := by
      rw [hm, List.length_insertionSort, List.length_append, List.length_insertionSort]
    by_cases hodd : merged.length % 2 = 1
    · rw [if_pos hodd]
      have hne : merged ≠ [] := by
        intro hh; rw [hh] at hodd; simp at hodd
      obtain ⟨f, hfmem, hf1, hf2⟩ := selectFloater_of_ne_nil r floated hne
      rcases hsel : selectFloater r floated merged with ⟨fopt, merged2, floated2⟩
      rw [hsel] at hf1 hf2
      dsimp only at hf1 hf2
      rw [hf1]
      dsimp only
      rw [ih]
      have hplen : merged2.length
          = 2 * (pairLoop prev merged2).pairs.length
            + (pairLoop prev merged2).carried.length :=
        pairLoopF_parity merged2.length prev merged2 (le_refl _)
      have he : merged2.length + 1 = merged.length := by
        rw [hf2, List.length_eraseP_of_mem hfmem (by simp)]
        have h0 : merged.length ≠ 0 := by
          intro hh; exact hne (List.length_eq_zero.mp hh)
        omega
      simp only [List.length_append, List.length_cons, List.length_nil,
        List.map_cons, List.sum_cons]
      omega
    · rw [if_neg hodd]
      dsimp only
      rw [ih]
      have hplen : merged.length
          = 2 * (pairLoop prev merged).pairs.length
            + (pairLoop prev merged).carried.length :=
        pairLoopF_parity merged.length prev merged (le_refl _)
      simp only [List.map_cons, List.sum_cons]
      omega

/-- If the incoming carry and all group members are active, so is everyone in
the carry leaving the score-group phase (floating only touches
`float_history`, and unpaired players are group members). -/
theorem processGroups_carry_active (r : Int) :
    ∀ (groups : List (ℚ × List Player)) (prev : List (String × String))
      (floated : List String) (carry updates : List Player),
      (∀ p ∈ carry, p.is_active = true) →
      (∀ g ∈ groups, ∀ p ∈ g.2, p.is_active = true) →
      ∀ p ∈ (processGroups r prev floated carry updates groups).carry,
        p.is_active = true := by
  intro groups
  induction groups with
  | nil =>
    intro prev floated carry updates hc hg p hp
    simp only [processGroups] at hp
    exact hc p hp
  | cons g rest ih =>
    intro prev floated carry updates hc hg p hp
    obtain ⟨s, grp⟩ := g
    rw [processGroups] at hp
    dsimp only at hp
    set merged := List.insertionSort seedLE (carry ++ List.insertionSort seedLE grp) with hm
    have hmact : ∀ x ∈ merged, x.is_active = true := by
      intro x hx
      rw [hm] at hx
      rcases List.mem_append.mp ((List.mem_insertionSort seedLE).mp hx) with h | h
      · exact hc x h
      · exact hg (s, grp) (List.mem_cons_self _ _) x ((List.mem_insertionSort seedLE).mp h)
    have hgrest : ∀ g ∈ rest, ∀ q ∈ g.2, q.is_active = true :=
      fun g hgm => hg g (List.mem_cons_of_mem _ hgm)
    by_cases hodd : merged.length % 2 = 1
    · rw [if_pos hodd] at hp
      have hne : merged ≠ [] := by
        intro hh; rw [hh] at hodd; simp at hodd
      obtain ⟨f, hfmem, hf1, hf2⟩ := selectFloater_of_ne_nil r floated hne
      rcases hsel : selectFloater r floated merged with ⟨fopt, merged2, floated2⟩
      rw [hsel] at hf1 hf2
      dsimp only at hf1 hf2
      rw [hsel, hf1] at hp
      dsimp only at hp
      have hm2act : ∀ x ∈ merged2, x.is_active = true := by
        intro x hx
        rw [hf2] at hx
        exact hmact x ((List.eraseP_sublist merged).mem hx)
      refine ih _ _ _ _ ?_ hgrest p hp
      intro x hx
      rcases List.mem_append.mp hx with h | h
      · have : x = { f with float_history := f.float_history ++ [r] } := by
          simpa using h
        rw [this]
        exact hmact f hfmem
      · exact hm2act x (pairLoopF_carried_mem _ _ _ x h)
    · rw [if_neg hodd] at hp
      dsimp only at hp
      refine ih _ _ _ _ ?_ hgrest p hp
      intro x hx
      exact hmact x (pairLoopF_carried_mem _ _ _ x hx)

/-- Sum over a list with no duplicates of indicator values of membership. -/
theorem sum_map_ite_one (x : ℚ) :
    ∀ ds : List ℚ, ds.Nodup → x ∈ ds →
      (ds.map (fun s => if x = s then 1 else 0)).sum = 1 := by
  intro ds
  induction ds with
  | nil => intro _ hx; simp at hx
  | cons s ds' ih =>
    intro hnd hx
    have hnd' := hnd.of_cons
    have hs : s ∉ ds' := (List.nodup_cons.mp hnd).1
    by_cases hxs : x = s
    · subst hxs
      have hzero : (ds'.map (fun u => if x = u then 1 else 0)).sum = 0 := by
        apply List.sum_eq_zero
        intro y hy
        obtain ⟨u, hu, huy⟩ := List.mem_map.mp hy
        have hne2 : ¬ x = u := by
          intro hh
          rw [hh] at hs
          exact hs hu
        rw [← huy, if_neg hne2]
      simp [hzero]
    · rcases List.mem_cons.mp hx with h | h
      · exact absurd h hxs
      · simp [hxs, ih hnd' h]

/-- Distributing a sum over a pointwise sum of maps. -/
theorem sum_map_add (ds : List ℚ) (f g : ℚ → Nat) :
    (ds.map (fun s => f s + g s)).sum = (ds.map f).sum + (ds.map g).sum := by
  induction ds with
  | nil => simp
  | cons s ds' ih => simp [ih]; omega

/-- Partitioning a list by a duplicate-free covering list of scores counts
every element exactly once. -/
theorem sum_filter_score_lengths :
    ∀ (l : List Player) (ds : List ℚ), ds.Nodup → (∀ p ∈ l, p.score ∈ ds) →
      (ds.map (fun s => (l.filter (fun p => p.score = s)).length)).sum = l.length := by
  intro l
  induction l with
  | nil =>
    intro ds _ _
    have : ds.map (fun s => (([] : List Player).filter (fun p => p.score = s)).length)
        = ds.map (fun _ => 0) := by
      simp
    rw [this]
    simp
  | cons p l' ih =>
    intro ds hnd hcov
    have hcov' : ∀ q ∈ l', q.score ∈ ds := fun q hq => hcov q (List.mem_cons_of_mem p hq)
    have hsplit : (ds.map (fun s => (((p :: l').filter (fun q => q.score = s)).length)))
        = ds.map (fun s => (if p.score = s then 1 else 0)
            + ((l'.filter (fun q => q.score = s)).length)) := by
      apply List.map_congr_left
      intro s _
      by_cases h : p.score = s <;> simp [List.filter_cons, h, Nat.add_comm]
    rw [hsplit, sum_map_add, sum_map_ite_one p.score ds hnd (hcov p (List.mem_cons_self p l')),
      ih ds hnd hcov']
    simp only [List.length_cons]
    omega

/-- The score groups of a tournament cover each active player exactly once. -/
theorem sum_scoreGroups (t : Tournament) :
    ((scoreGroupsOf t).map (fun g => g.2.length)).sum = t.activePlayers.length := by
  unfold scoreGroupsOf
  rw [List.map_map]
  have hnd : (distinctScoresDesc t).Nodup := by
    unfold distinctScoresDesc
    exact ((List.perm_insertionSort scoreGE _).nodup_iff).mpr (List.nodup_dedup _)
  have hcov : ∀ p ∈ t.activePlayers, p.score ∈ distinctScoresDesc t := by
    intro p hp
    unfold distinctScoresDesc
    exact (List.mem_insertionSort scoreGE).mpr
      (List.mem_dedup.mpr (List.mem_map_of_mem Player.score hp))
  exact sum_filter_score_lengths t.activePlayers (distinctScoresDesc t) hnd hcov

/-- The leftovers carry of the score-group phase has the parity of the
active-player count. -/
theorem groupStage_carry_parity (t : Tournament) (r : Int) :
    (groupStage t r).carry.length % 2 = t.activePlayers.length % 2 := by
  unfold groupStage
  rw [processGroups_carry_parity, sum_scoreGroups]
  simp

/-- Everyone in the leftovers carry of the score-group phase is active. -/
theorem groupStage_carry_active (t : Tournament) (r : Int) :
    ∀ p ∈ (groupStage t r).carry, p.is_active = true := by
  unfold groupStage
  apply processGroups_carry_active
  · intro p hp; simp at hp
  · intro g hg p hp
    unfold scoreGroupsOf at hg
    obtain ⟨s, _, hgs⟩ := List.mem_map.mp hg
    rw [← hgs] at hp
    exact (List.mem_filter.mp (List.mem_filter.mp hp).1).2

/-- The bye of the leftover finalization: assigned iff the carry is odd
(given an all-active carry), and recorded in the appended history entry. -/
theorem finishRound_bye_spec (t : Tournament) (prev : List (String × String))
    (updates : List Player) (groupPairs : List (Player × Player))
    (carry : List Player) (hact : ∀ p ∈ carry, p.is_active = true) :
    (((finishRound t prev updates groupPairs carry).bye.isSome = true)
      ↔ carry.length % 2 = 1) ∧
    (finishRound t prev updates groupPairs carry).t.rounds_byes_ids
      = t.rounds_byes_ids
        ++ [((finishRound t prev updates groupPairs carry).bye).map Player.id] := by
  unfold finishRound
  dsimp only
  have hpl : (List.insertionSort seedLE carry).length = carry.length :=
    List.length_insertionSort seedLE carry
  by_cases hodd : (List.insertionSort seedLE carry).length % 2 = 1
  · rw [if_pos hodd]
    have hne : List.insertionSort seedLE carry ≠ [] := by
      intro hh; rw [hh] at hodd; simp at hodd
    obtain ⟨cand, hcand⟩ : ∃ c, (List.insertionSort seedLE carry).getLast? = some c := by
      cases hq : (List.insertionSort seedLE carry).getLast? with
      | none => exact absurd (List.getLast?_eq_none_iff.mp hq) hne
      | some c => exact ⟨c, rfl⟩
    have hcact : cand.is_active = true :=
      hact _ ((List.mem_insertionSort seedLE).mp (List.mem_of_getLast?_eq_some hcand))
    rw [hcand]
    dsimp only
    rw [get_eligible_singleton cand hcact]
    refine ⟨?_, rfl⟩
    simp only [Option.isSome_some, true_iff]
    omega
  · rw [if_neg hodd]
    refine ⟨?_, rfl⟩
    simp only [Option.isSome_none, Bool.false_eq_true, false_iff]
    omega

/-- The bye of a round-1 pairing: assigned iff the active count is odd
(for a nonempty all-active roster), and recorded in the appended entry. -/
theorem round1_bye_spec (t : Tournament) (actives : List Player)
    (_hne : actives ≠ []) (hact : ∀ p ∈ actives, p.is_active = true) :
    (((round1Pairings t actives).bye.isSome = true) ↔ actives.length % 2 = 1) ∧
    (round1Pairings t actives).t.rounds_byes_ids
      = t.rounds_byes_ids ++ [((round1Pairings t actives).bye).map Player.id] := by
  unfold round1Pairings
  dsimp only
  have hpl : (List.insertionSort seedLE actives).length = actives.length :=
    List.length_insertionSort seedLE actives
  by_cases hodd : (List.insertionSort seedLE actives).length % 2 = 1
  · rw [if_pos hodd]
    have hsne : List.insertionSort seedLE actives ≠ [] := by
      intro hh; rw [hh] at hodd; simp at hodd
    have hsact : ∀ p ∈ List.insertionSort seedLE actives, p.is_active = true :=
      fun p hp => hact p ((List.mem_insertionSort seedLE).mp hp)
    obtain ⟨q, hq⟩ := get_eligible_some _ hsne hsact
    rw [hq]
    refine ⟨?_, rfl⟩
    simp only [Option.isSome_some, true_iff]
    omega
  · rw [if_neg hodd]
    refine ⟨?_, rfl⟩
    simp only [Option.isSome_none, Bool.false_eq_true, false_iff]
    omega

/-! ### C4 — bye iff odd active count -/

/-- C4: for every emitted round (the active roster is nonempty), the bye
entry appended to `rounds_byes_ids` names exactly one player iff the number
of active players at the moment of pairing is odd; with an even count no bye
is assigned. -/
theorem C4_bye_iff_odd_actives (t : Tournament) (r : Int)
    (h : t.activePlayers ≠ []) :
    (((create_pairings t r).bye.isSome = true)
      ↔ t.activePlayers.length % 2 = 1) ∧
    (create_pairings t r).t.rounds_byes_ids
      = t.rounds_byes_ids ++ [((create_pairings t r).bye).map Player.id] := by
  have he : t.activePlayers.isEmpty = false := by
    cases hc : t.activePlayers with
    | nil => exact absurd hc h
    | cons a l => rfl
  have hact : ∀ p ∈ t.activePlayers, p.is_active = true := fun p hp =>
    (List.mem_filter.mp hp).2
  unfold create_pairings
  by_cases hr : r = 1
  · simp only [he, Bool.false_eq_true, if_false, hr, if_pos]
    exact round1_bye_spec t t.activePlayers h hact
  · simp only [he, Bool.false_eq_true, if_false, if_neg hr]
    have hspec := finishRound_bye_spec t (groupStage t r).prev (groupStage t r).updated
      (groupStage t r).pairs (groupStage t r).carry (groupStage_carry_active t r)
    have hpar := groupStage_carry_parity t r
    refine ⟨?_, hspec.2⟩
    rw [hspec.1]
    omega

/-- Witness for `C4_bye_iff_odd_actives` at the one-player tournament: one
active player (odd), so the bye is assigned and recorded. -/
theorem C4_bye_iff_odd_actives_witness :
    (((create_pairings tOne 1).bye.isSome = true)
      ↔ tOne.activePlayers.length % 2 = 1) ∧
    (create_pairings tOne 1).t.rounds_byes_ids
      = tOne.rounds_byes_ids ++ [((create_pairings tOne 1).bye).map Player.id] :=
  C4_bye_iff_odd_actives tOne 1 (by decide)

/-! ### C1 — bye selection over the leftovers pool -/

/-- C1 fails on the code: entering round 3 of `tPool` the leftovers pool is
the whole (odd) score group `[pA, pB, pC]`; §4.2.B over this pool selects
`pB` (lowest (score, rating, name) among those without a bye), but the code
passes only the last sorted leftover `pC` to `_get_eligible_bye_player`, and
`pC` — who already had a bye — receives a second one. -/
theorem C1_counterexample :
    (leftoversPool tPool 3).length % 2 = 1 ∧
    (leftoversPool tPool 3).map Player.id = ["a", "b", "c"] ∧
    ((create_pairings tPool 3).bye).map Player.id = some "c" ∧
    (specByeSelect (leftoversPool tPool 3)).map Player.id = some "b" ∧
    ¬ ((create_pairings tPool 3).bye).map Player.id
        = (specByeSelect (leftoversPool tPool 3)).map Player.id := by
  refine ⟨by with_unfolding_all rfl, by with_unfolding_all rfl,
    by with_unfolding_all rfl, by with_unfolding_all rfl, ?_⟩
  intro hh
  rw [show ((create_pairings tPool 3).bye).map Player.id = some "c" from
      by with_unfolding_all rfl,
    show (specByeSelect (leftoversPool tPool 3)).map Player.id = some "b" from
      by with_unfolding_all rfl] at hh
  exact absurd hh (by decide)

/-- C1 (amended): in rounds after the first with an odd leftovers pool, the
bye candidate is only the **last** element of the pool sorted by (rating
desc, name asc); being active, that player always receives the bye —
regardless of whether other pool members still lack a bye. -/
theorem C1_bye_is_last_leftover (t : Tournament) (r : Int) (hr : ¬ r = 1)
    (hne : t.activePlayers ≠ [])
    (hodd : (leftoversPool t r).length % 2 = 1) :
    ∃ c, (leftoversPool t r).getLast? = some c
      ∧ (create_pairings t r).bye = some c := by
  have he : t.activePlayers.isEmpty = false := by
    cases hc : t.activePlayers with
    | nil => exact absurd hc hne
    | cons a l => rfl
  unfold create_pairings
  simp only [he, Bool.false_eq_true, if_false, if_neg hr]
  unfold finishRound
  dsimp only
  unfold leftoversPool at hodd ⊢
  rw [if_pos hodd]
  have hnenil : List.insertionSort seedLE (groupStage t r).carry ≠ [] := by
    intro hh; rw [hh] at hodd; simp at hodd
  obtain ⟨cand, hcand⟩ :
      ∃ c, (List.insertionSort seedLE (groupStage t r).carry).getLast? = some c := by
    cases hq : (List.insertionSort seedLE (groupStage t r).carry).getLast? with
    | none => exact absurd (List.getLast?_eq_none_iff.mp hq) hnenil
    | some c => exact ⟨c, rfl⟩
  have hcact : cand.is_active = true :=
    groupStage_carry_active t r cand
      ((List.mem_insertionSort seedLE).mp (List.mem_of_getLast?_eq_some hcand))
  rw [hcand]
  dsimp only
  rw [get_eligible_singleton cand hcact]
  exact ⟨cand, rfl, rfl⟩

/-- Witness for `C1_bye_is_last_leftover` at `tPool`, round 3: the last
sorted leftover (`pC`, rating 1300, mutated float history) is the bye. -/
theorem C1_bye_is_last_leftover_witness :
    ∃ c, (leftoversPool tPool 3).getLast? = some c
      ∧ (create_pairings tPool 3).bye = some c :=
  C1_bye_is_last_leftover tPool 3 (by decide) (by decide)
    (by with_unfolding_all rfl)
